import Mathlib

/-!
Verification development for the portfolio typewriter engine and its timing
primitives.

The definitions below are a shallow embedding of the JavaScript sources:

* `TypingEffect` (single-text typewriter) and `MultiLineTypingEffect`
  (multi-line typewriter) from the typing-effect module;
* `debounce` and `throttle` from `Frontend/js/utils.js`.

Modelling conventions:

* A displayed string (`textContent` of a DOM element) is a `List Char`
  (`Str`).  JavaScript `text.substring(0, k)` on the displayed prefix is
  `List.take k`.
* `setTimeout`/`clearTimeout` are modelled by a `Scheduler` holding the set
  of live (pending) timer handles as a list of fresh ids.  Handles start at
  1 so that the JavaScript truthiness test `if (this.timeoutId)` coincides
  with an `Option` match.  Timer delays are not modelled: no claim depends
  on the real-time spacing of ticks, only on which transitions occur and
  which timers are pending.
* A possibly missing DOM element is an `Option`; writes to a missing
  element are no-ops (reachable executions never write to a missing
  element, since `init` refuses to start in that case).
* `currentCharIndex` is a `Nat`.  The JavaScript value can reach `-1` only
  in states that are unreachable from construction (deleting with count 0);
  on every state reachable from `init`/`pause`/`resume` the embedding
  agrees with the source.
* `texts[this.currentTextIndex]` is embedded as `getD _ []`; the source
  would throw on an out-of-range index, which is likewise unreachable.
-/

abbrev Str := List Char

/-- The timer service: fresh handle supply plus the list of live (pending)
timer handles, in order of creation. -/
structure Scheduler where
  nextId : Nat
  live : List Nat
deriving Repr, DecidableEq

/-- Initial timer service: no pending timer; handles start at 1 (browser
timer ids are nonzero, which the source's truthiness test relies on). -/
def Scheduler.initial : Scheduler := ⟨1, []⟩

/-- `setTimeout`: returns a fresh handle and adds it to the live set. -/
def Scheduler.setTimeout (w : Scheduler) : Nat × Scheduler :=
  (w.nextId, ⟨w.nextId + 1, w.live.concat w.nextId⟩)

/-- `clearTimeout h`: removes handle `h` from the live set (a no-op if `h`
already fired or was already cancelled). -/
def Scheduler.clearTimeout (w : Scheduler) (h : Nat) : Scheduler :=
  ⟨w.nextId, w.live.erase h⟩

/-- Constructor options of `TypingEffect`, with the source's defaults. -/
structure TEOptions where
  typeSpeed : Nat := 100
  deleteSpeed : Nat := 50
  pauseTime : Nat := 2000
  loop : Bool := true
  showCursor : Bool := true
  cursorChar : Char := '|'
deriving Repr, DecidableEq

/-- Instance state of `TypingEffect`: the constructor fields plus the timer
service the instance schedules into.  `element` is the text sink
(`none` = the host document has no such element). -/
structure TEState where
  element : Option Str
  texts : List Str
  options : TEOptions
  currentTextIndex : Nat
  currentCharIndex : Nat
  isDeleting : Bool
  isPaused : Bool
  timeoutId : Option Nat
  sched : Scheduler
deriving Repr, DecidableEq

/-- `this.element.textContent = d` (no-op when the element is missing). -/
def TEState.setText (s : TEState) (d : Str) : TEState :=
  { s with element := s.element.map fun _ => d }

/-- `this.timeoutId = setTimeout(() => this.type(), nextDelay)`. -/
def TEState.scheduleTick (s : TEState) : TEState :=
  { s with timeoutId := some s.sched.setTimeout.1, sched := s.sched.setTimeout.2 }

/-- `TypingEffect.type` (the tick body), one step of the state machine. -/
def TEState.type (s : TEState) : TEState :=
  if s.isPaused then s
  else
    let currentText := s.texts.getD s.currentTextIndex []
    if s.isDeleting = false then
      -- typing mode
      let displayText := currentText.take (s.currentCharIndex + 1)
      let s := { s with currentCharIndex := s.currentCharIndex + 1 }
      let s := if s.currentCharIndex = currentText.length
               then { s with isDeleting := true } else s
      (s.setText displayText).scheduleTick
    else
      -- deleting mode
      let displayText := currentText.take (s.currentCharIndex - 1)
      let s := { s with currentCharIndex := s.currentCharIndex - 1 }
      if s.currentCharIndex = 0 then
        let s := { s with isDeleting := false,
                          currentTextIndex :=
                            (s.currentTextIndex + 1) % s.texts.length }
        if s.options.loop = false ∧ s.currentTextIndex = 0 then
          -- stop if not looping and reached the end: write, no reschedule
          s.setText displayText
        else (s.setText displayText).scheduleTick
      else (s.setText displayText).scheduleTick

/-- `TypingEffect.stop`: cancel the stored pending timer, if any. -/
def TEState.stop (s : TEState) : TEState :=
  match s.timeoutId with
  | some h => { s with sched := s.sched.clearTimeout h, timeoutId := none }
  | none => s

/-- `TypingEffect.start` just runs `type` synchronously. -/
def TEState.start (s : TEState) : TEState := s.type

/-- `TypingEffect.pause`: set the paused flag, then `stop`. -/
def TEState.pause (s : TEState) : TEState :=
  TEState.stop { s with isPaused := true }

/-- `TypingEffect.resume`: clear the paused flag, then `start`. -/
def TEState.resume (s : TEState) : TEState :=
  TEState.start { s with isPaused := false }

/-- Construction (`constructor` + `init`): field initialisation, then, when
the element exists and the text list is non-empty, clear the sink and
start; otherwise stay inert. -/
def TypingEffect.new (element : Option Str) (texts : List Str)
    (opts : TEOptions) : TEState :=
  let s : TEState :=
    { element, texts, options := opts, currentTextIndex := 0,
      currentCharIndex := 0, isDeleting := false, isPaused := false,
      timeoutId := none, sched := Scheduler.initial }
  if element.isNone ∨ texts = [] then s
  else (s.setText []).start

/-- One scheduler-driven tick: when the instance's single pending timer
fires it leaves the live set and the `type` callback runs.  With zero (or,
out of the timer-driven discipline, several) pending timers nothing is
driven. -/
def TEState.tick (s : TEState) : TEState :=
  match s.sched.live with
  | [h] => TEState.type { s with sched := s.sched.clearTimeout h }
  | _ => s

/-- The shape of every state of a timer-driven run of `TypingEffect`
(constructed, started, never externally paused): the freshly scheduled
timer `n - 1` is the single pending one, the next handle is `n`, and the
element exists and displays `disp`. -/
def runTE (texts : List Str) (opts : TEOptions) (i c : Nat) (del : Bool)
    (disp : Str) (n : Nat) : TEState :=
  { element := some disp, texts, options := opts, currentTextIndex := i,
    currentCharIndex := c, isDeleting := del, isPaused := false,
    timeoutId := some (n - 1), sched := ⟨n, [n - 1]⟩ }

/-- The state after the non-looping machine stops: index and count back at
0, empty sink, no pending timer (the stored handle is the stale, already
fired one, as in the source, which never nulls it on this path). -/
def stoppedTE (texts : List Str) (opts : TEOptions) (n : Nat) : TEState :=
  { element := some [], texts, options := opts, currentTextIndex := 0,
    currentCharIndex := 0, isDeleting := false, isPaused := false,
    timeoutId := some (n - 1), sched := ⟨n, []⟩ }

theorem tick_runTE (texts : List Str) (opts : TEOptions) (i c : Nat)
    (del : Bool) (disp : Str) (n : Nat) :
    (runTE texts opts i c del disp n).tick
      = TEState.type { runTE texts opts i c del disp n with
                       sched := ⟨n, []⟩ } := by
  simp [runTE, TEState.tick, Scheduler.clearTimeout]

theorem tick_typing_mid (texts : List Str) (opts : TEOptions) (i c : Nat)
    (t disp : Str) (n : Nat) (hget : texts[i]? = some t)
    (hc : c + 1 ≠ t.length) :
    (runTE texts opts i c false disp n).tick
      = runTE texts opts i (c + 1) false (t.take (c + 1)) (n + 1) := by
  rw [tick_runTE]
  simp [runTE, TEState.type, List.getD, hget, hc, TEState.setText,
    TEState.scheduleTick, Scheduler.setTimeout]

theorem tick_typing_done (texts : List Str) (opts : TEOptions) (i c : Nat)
    (t disp : Str) (n : Nat) (hget : texts[i]? = some t)
    (hc : c + 1 = t.length) :
    (runTE texts opts i c false disp n).tick
      = runTE texts opts i (c + 1) true t (n + 1) := by
  rw [tick_runTE]
  simp [runTE, TEState.type, List.getD, hget, hc, TEState.setText,
    TEState.scheduleTick, Scheduler.setTimeout]

theorem tick_deleting_mid (texts : List Str) (opts : TEOptions) (i c : Nat)
    (t disp : Str) (n : Nat) (hget : texts[i]? = some t) (hc : 1 < c) :
    (runTE texts opts i c true disp n).tick
      = runTE texts opts i (c - 1) true (t.take (c - 1)) (n + 1) := by
  rw [tick_runTE]
  have hc0 : ¬ (c - 1 = 0) := by omega
  simp [runTE, TEState.type, List.getD, hget, hc0, TEState.setText,
    TEState.scheduleTick, Scheduler.setTimeout]

theorem tick_deleting_last_continue (texts : List Str) (opts : TEOptions)
    (i : Nat) (disp : Str) (n : Nat)
    (hcont : ¬ (opts.loop = false ∧ (i + 1) % texts.length = 0)) :
    (runTE texts opts i 1 true disp n).tick
      = runTE texts opts ((i + 1) % texts.length) 0 false [] (n + 1) := by
  rw [tick_runTE]
  simp [runTE, TEState.type, List.getD, hcont, TEState.setText,
    TEState.scheduleTick, Scheduler.setTimeout]

theorem tick_deleting_last_stop (texts : List Str) (opts : TEOptions)
    (i : Nat) (disp : Str) (n : Nat) (hloop : opts.loop = false)
    (hwrap : (i + 1) % texts.length = 0) :
    (runTE texts opts i 1 true disp n).tick = stoppedTE texts opts n := by
  rw [tick_runTE]
  simp [runTE, stoppedTE, TEState.type, List.getD, hloop, hwrap,
    TEState.setText, TEState.scheduleTick, Scheduler.setTimeout]

/-- A stopped machine has no pending timer, so no further tick runs. -/
theorem tick_stoppedTE (texts : List Str) (opts : TEOptions) (n : Nat) :
    (stoppedTE texts opts n).tick = stoppedTE texts opts n := by
  simp [stoppedTE, TEState.tick]

/-- Typing phase: from count `c` it takes `k + 1` ticks (with
`c + (k + 1) = |t|`) to finish typing text `t`, ending with the full text
displayed and the machine switched to deleting mode. -/
theorem TE_typing_phase (texts : List Str) (opts : TEOptions) (i : Nat)
    (t : Str) (hget : texts[i]? = some t) :
    ∀ k c disp n, c + (k + 1) = t.length →
      TEState.tick^[k + 1] (runTE texts opts i c false disp n)
        = runTE texts opts i t.length true t (n + k + 1) := by
  intro k
  induction k with
  | zero =>
    intro c disp n hc
    rw [Function.iterate_one, tick_typing_done texts opts i c t disp n hget hc,
      hc]
  | succ k ih =>
    intro c disp n hc
    rw [Function.iterate_succ_apply,
      tick_typing_mid texts opts i c t disp n hget (by omega)]
    have := ih (c + 1) (t.take (c + 1)) (n + 1) (by omega)
    rw [this]
    congr 1
    omega

/-- Deleting phase, non-final text (or looping enabled): from count `k + 1`
it takes `k + 1` ticks to delete the text, ending at the next text index
with an empty display. -/
theorem TE_deleting_phase_continue (texts : List Str) (opts : TEOptions)
    (i : Nat) (t : Str) (hget : texts[i]? = some t)
    (hcont : ¬ (opts.loop = false ∧ (i + 1) % texts.length = 0)) :
    ∀ k disp n,
      TEState.tick^[k + 1] (runTE texts opts i (k + 1) true disp n)
        = runTE texts opts ((i + 1) % texts.length) 0 false [] (n + k + 1) := by
  intro k
  induction k with
  | zero =>
    intro disp n
    rw [Function.iterate_one, tick_deleting_last_continue texts opts i disp n hcont]
  | succ k ih =>
    intro disp n
    rw [Function.iterate_succ_apply,
      tick_deleting_mid texts opts i (k + 2) t disp n hget (by omega)]
    have := ih (t.take (k + 2 - 1)) (n + 1)
    simp only [show k + 2 - 1 = k + 1 from rfl] at this ⊢
    rw [this]
    congr 1
    omega

/-- Deleting phase, final text with looping disabled: from count `k + 1`
it takes `k + 1` ticks to delete the text and stop. -/
theorem TE_deleting_phase_stop (texts : List Str) (opts : TEOptions)
    (i : Nat) (t : Str) (hget : texts[i]? = some t)
    (hloop : opts.loop = false) (hwrap : (i + 1) % texts.length = 0) :
    ∀ k disp n,
      TEState.tick^[k + 1] (runTE texts opts i (k + 1) true disp n)
        = stoppedTE texts opts (n + k) := by
  intro k
  induction k with
  | zero =>
    intro disp n
    rw [Function.iterate_one, tick_deleting_last_stop texts opts i disp n hloop hwrap]
    rfl
  | succ k ih =>
    intro disp n
    rw [Function.iterate_succ_apply,
      tick_deleting_mid texts opts i (k + 2) t disp n hget (by omega)]
    have := ih (t.take (k + 2 - 1)) (n + 1)
    simp only [show k + 2 - 1 = k + 1 from rfl] at this ⊢
    rw [this]
    congr 1
    omega

/-- One full type-pause-delete cycle of a non-final text (or with looping
enabled): `2 |t|` ticks, ending ready to type the next text. -/
theorem TE_cycle_continue (texts : List Str) (opts : TEOptions) (i : Nat)
    (t : Str) (hget : texts[i]? = some t) (ht : t ≠ [])
    (hcont : ¬ (opts.loop = false ∧ (i + 1) % texts.length = 0))
    (disp : Str) (n : Nat) :
    TEState.tick^[2 * t.length] (runTE texts opts i 0 false disp n)
      = runTE texts opts ((i + 1) % texts.length) 0 false []
          (n + 2 * t.length) := by
  have hL : 1 ≤ t.length := by
    cases t with
    | nil => exact absurd rfl ht
    | cons a l => simp
  have h2 : 2 * t.length = t.length + t.length := by omega
  rw [h2, Function.iterate_add_apply]
  have htype := TE_typing_phase texts opts i t hget (t.length - 1) 0 disp n
    (by omega)
  rw [show t.length - 1 + 1 = t.length from by omega,
    show n + (t.length - 1) + 1 = n + t.length from by omega] at htype
  rw [htype]
  have hdel := TE_deleting_phase_continue texts opts i t hget hcont
    (t.length - 1) t (n + t.length)
  rw [show t.length - 1 + 1 = t.length from by omega] at hdel
  rw [hdel]
  congr 1
  omega

/-- One full type-pause-delete cycle of the final text with looping
disabled: `2 |t|` ticks, ending stopped. -/
theorem TE_cycle_stop (texts : List Str) (opts : TEOptions) (i : Nat)
    (t : Str) (hget : texts[i]? = some t) (ht : t ≠ [])
    (hloop : opts.loop = false) (hwrap : (i + 1) % texts.length = 0)
    (disp : Str) (n : Nat) :
    TEState.tick^[2 * t.length] (runTE texts opts i 0 false disp n)
      = stoppedTE texts opts (n + 2 * t.length - 1) := by
  have hL : 1 ≤ t.length := by
    cases t with
    | nil => exact absurd rfl ht
    | cons a l => simp
  have h2 : 2 * t.length = t.length + t.length := by omega
  rw [h2, Function.iterate_add_apply]
  have htype := TE_typing_phase texts opts i t hget (t.length - 1) 0 disp n
    (by omega)
  rw [show t.length - 1 + 1 = t.length from by omega,
    show n + (t.length - 1) + 1 = n + t.length from by omega] at htype
  rw [htype]
  have hdel := TE_deleting_phase_stop texts opts i t hget hloop hwrap
    (t.length - 1) t (n + t.length)
  rw [show t.length - 1 + 1 = t.length from by omega] at hdel
  rw [hdel]
  congr 1
  omega

/-- Total character count of a text list. -/
def sumLen (texts : List Str) : Nat := (texts.map List.length).sum

/-- Running the machine over the texts from index `i` to the end of a
non-looping list: `2 * sumLen (texts.drop i)` ticks end in the stopped
state. -/
theorem TE_run_to_stop (texts : List Str) (opts : TEOptions)
    (hloop : opts.loop = false) (hne : ∀ t ∈ texts, t ≠ []) :
    ∀ j i disp n, i + j + 1 = texts.length →
      TEState.tick^[2 * sumLen (texts.drop i)]
          (runTE texts opts i 0 false disp n)
        = stoppedTE texts opts (n + 2 * sumLen (texts.drop i) - 1) := by
  intro j
  induction j with
  | zero =>
    intro i disp n hi
    have hilt : i < texts.length := by omega
    have hget : texts[i]? = some texts[i] := List.getElem?_eq_getElem hilt
    have hdrop : texts.drop i = [texts[i]] := by
      rw [List.drop_eq_getElem_cons hilt, show i + 1 = texts.length from by
        omega, List.drop_length]
    have hsum : sumLen (texts.drop i) = texts[i].length := by
      rw [hdrop]; simp [sumLen]
    rw [hsum]
    have hwrap : (i + 1) % texts.length = 0 := by
      rw [show i + 1 = texts.length from by omega, Nat.mod_self]
    exact TE_cycle_stop texts opts i texts[i] hget
      (hne _ (List.getElem_mem hilt)) hloop hwrap disp n
  | succ j ih =>
    intro i disp n hi
    have hilt : i < texts.length := by omega
    have hget : texts[i]? = some texts[i] := List.getElem?_eq_getElem hilt
    have hdrop : texts.drop i = texts[i] :: texts.drop (i + 1) :=
      List.drop_eq_getElem_cons hilt
    have hsum : sumLen (texts.drop i)
        = texts[i].length + sumLen (texts.drop (i + 1)) := by
      simp only [sumLen, hdrop, List.map_cons, List.sum_cons]
    have hmod : (i + 1) % texts.length = i + 1 := Nat.mod_eq_of_lt (by omega)
    have hcont : ¬ (opts.loop = false ∧ (i + 1) % texts.length = 0) := by
      rw [hmod]; omega
    have hcyc := TE_cycle_continue texts opts i texts[i] hget
      (hne _ (List.getElem_mem hilt)) hcont disp n
    rw [hmod] at hcyc
    have hsplit : 2 * sumLen (texts.drop i)
        = 2 * sumLen (texts.drop (i + 1)) + 2 * texts[i].length := by
      omega
    rw [hsplit, Function.iterate_add_apply, hcyc]
    have := ih (i + 1) [] (n + 2 * texts[i].length) (by omega)
    rw [this]
    congr 1
    omega

/-- Constructing a started machine coincides with one driven tick from the
pre-start configuration: `init` clears the sink and runs `type`
synchronously. -/
theorem new_eq_tick_runTE (texts : List Str) (opts : TEOptions) (e : Str)
    (h : texts ≠ []) :
    TypingEffect.new (some e) texts opts = (runTE texts opts 0 0 false [] 1).tick := by
  rw [tick_runTE]
  simp only [TypingEffect.new, h, TEState.start, TEState.setText, runTE,
    Option.isNone_some, Bool.false_eq_true, or_self, if_false, Option.map_some,
    or_false, false_or, if_neg h]
  by_cases hc : (1 : Nat) = List.length (texts[0]?.getD [])
  all_goals simp [TEState.type, TEState.setText, TEState.scheduleTick,
    Scheduler.setTimeout, Scheduler.initial, List.getD, hc]

/-- C3: for every non-empty list of non-empty texts with looping disabled,
after the full type-pause-delete cycle of the last text (2 · total
characters ticks counting the synchronous construction tick, hence
`2 * sumLen texts - 1` scheduler-driven ticks after construction) the
single-text typewriter is stopped: empty text displayed, no pending timer,
and every further tick leaves it unchanged. -/
theorem typingEffect_nonloop_reaches_stopped (texts : List Str)
    (opts : TEOptions) (e : Str) (hne : texts ≠ [])
    (hall : ∀ t ∈ texts, t ≠ []) (hloop : opts.loop = false) :
    TEState.tick^[2 * sumLen texts - 1] (TypingEffect.new (some e) texts opts)
      = stoppedTE texts opts (2 * sumLen texts)
    ∧ (stoppedTE texts opts (2 * sumLen texts)).element = some []
    ∧ (stoppedTE texts opts (2 * sumLen texts)).sched.live = []
    ∧ ∀ m, TEState.tick^[m] (stoppedTE texts opts (2 * sumLen texts))
        = stoppedTE texts opts (2 * sumLen texts) := by
  have hlen : 1 ≤ texts.length := by
    cases texts with
    | nil => exact absurd rfl hne
    | cons t ts => simp
  have hS : 1 ≤ sumLen texts := by
    cases texts with
    | nil => exact absurd rfl hne
    | cons t ts =>
      have ht := hall t (by simp)
      have : 1 ≤ t.length := by
        cases t with
        | nil => exact absurd rfl ht
        | cons x xs => simp
      simp only [sumLen, List.map_cons, List.sum_cons]
      omega
  refine ⟨?_, rfl, rfl, fun m => Function.iterate_fixed (tick_stoppedTE texts opts _) m⟩
  rw [new_eq_tick_runTE texts opts e hne, ← Function.iterate_succ_apply,
    Nat.succ_eq_add_one,
    show 2 * sumLen texts - 1 + 1 = 2 * sumLen texts from by omega]
  have hrun := TE_run_to_stop texts opts hloop hall (texts.length - 1) 0 [] 1
    (by omega)
  rw [List.drop_zero] at hrun
  rw [hrun]
  congr 1
  omega

/-- Witness for C3 at `texts = ["ab"]`, `loop = false`. -/
theorem typingEffect_nonloop_reaches_stopped_witness :
    TEState.tick^[3] (TypingEffect.new (some []) [['a', 'b']] { loop := false })
      = stoppedTE [['a', 'b']] { loop := false } 4
    ∧ (stoppedTE [['a', 'b']] { loop := false } 4).element = some []
    ∧ (stoppedTE [['a', 'b']] { loop := false } 4).sched.live = []
    ∧ ∀ m, TEState.tick^[m] (stoppedTE [['a', 'b']] { loop := false } 4)
        = stoppedTE [['a', 'b']] { loop := false } 4 :=
  typingEffect_nonloop_reaches_stopped [['a', 'b']] { loop := false } []
    (by decide) (by decide) rfl

/-- C10: the guard at the top of `type` makes a tick that fires while the
machine is paused a complete no-op: no field changes, no write, and no new
timer is scheduled. -/
theorem typingEffect_tick_while_paused_noop (s : TEState)
    (h : s.isPaused = true) : s.type = s := by
  simp [TEState.type, h]

/-- Witness for C10 at the machine for `["a"]`, paused right after
construction. -/
theorem typingEffect_tick_while_paused_noop_witness :
    TEState.type (TEState.pause (TypingEffect.new (some []) [['a']] {}))
      = TEState.pause (TypingEffect.new (some []) [['a']] {}) :=
  typingEffect_tick_while_paused_noop _ (by decide)

/-- C1, counterexample to the resume half: for the machine on `["ab"]`
paused after the first character, `resume` synchronously runs a tick, so
the displayed text right after `resume` returns (`"ab"`) differs from the
displayed text at the moment of pause (`"a"`). -/
theorem typingEffect_resume_display_counterexample :
    (TEState.resume (TEState.pause (TypingEffect.new (some []) [['a', 'b']] {}))).element
      ≠ (TEState.pause (TypingEffect.new (some []) [['a', 'b']] {})).element := by
  decide

/-- C1 as amended: pausing preserves the text index, character count,
direction flag and displayed text; a subsequent resume continues from that
exact position, but runs one tick synchronously, so the display right
after `resume` is one `type` step ahead of the display at pause (here:
the preserved prefix extended by one character). -/
theorem typingEffect_pause_preserves_resume_continues :
    (∀ s : TEState,
      s.pause.currentTextIndex = s.currentTextIndex
      ∧ s.pause.currentCharIndex = s.currentCharIndex
      ∧ s.pause.isDeleting = s.isDeleting
      ∧ s.pause.element = s.element)
    ∧ ∀ (s : TEState) (t e : Str), s.isDeleting = false →
        s.texts[s.currentTextIndex]? = some t → s.element = some e →
        s.pause.resume.currentCharIndex = s.currentCharIndex + 1
        ∧ s.pause.resume.element = some (t.take (s.currentCharIndex + 1)) := by
  constructor
  · intro s
    cases h : s.timeoutId <;>
      simp [TEState.pause, TEState.stop, h]
  · intro s t e hdel hget helem
    have hpause : ∀ u : TEState, (TEState.stop u).texts = u.texts
        ∧ (TEState.stop u).currentTextIndex = u.currentTextIndex
        ∧ (TEState.stop u).currentCharIndex = u.currentCharIndex
        ∧ (TEState.stop u).isDeleting = u.isDeleting
        ∧ (TEState.stop u).element = u.element := by
      intro u
      cases h : u.timeoutId <;> simp [TEState.stop, h]
    cases htid : s.timeoutId <;>
      by_cases hlen : s.currentCharIndex + 1 = t.length <;>
        simp [TEState.pause, TEState.stop, TEState.resume, TEState.start,
          TEState.type, TEState.setText, TEState.scheduleTick,
          Scheduler.setTimeout, List.getD, htid, hdel, hget, helem, hlen]

/-- Witness for the amended C1 on the `["ab"]` machine paused after one
character. -/
theorem typingEffect_pause_preserves_resume_continues_witness :
    (TypingEffect.new (some []) [['a', 'b']] {}).pause.currentCharIndex
        = (TypingEffect.new (some []) [['a', 'b']] {}).currentCharIndex
    ∧ (TypingEffect.new (some []) [['a', 'b']] {}).pause.resume.element
        = some ['a', 'b'] := by
  constructor
  · exact (typingEffect_pause_preserves_resume_continues.1 _).2.1
  · exact (typingEffect_pause_preserves_resume_continues.2
      (TypingEffect.new (some []) [['a', 'b']] {}) ['a', 'b'] ['a']
      (by decide) (by decide) (by decide)).2

/-- C2, counterexample to the resume half: on the freshly constructed,
active (non-paused) `["ab"]` machine, `resume` is not a no-op — it runs a
tick and schedules an extra timer. -/
theorem typingEffect_resume_not_idempotent_counterexample :
    TEState.resume (TypingEffect.new (some []) [['a', 'b']] {})
      ≠ TypingEffect.new (some []) [['a', 'b']] {} := by
  decide

/-- C2 as amended: pause is idempotent, but resume is not — on an active
typing-mode machine `resume` advances the character count and appends a
freshly scheduled timer to the pending set without cancelling the existing
one. -/
theorem typingEffect_pause_idempotent_resume_not :
    (∀ s : TEState, s.pause.pause = s.pause)
    ∧ ∀ s : TEState, s.isPaused = false → s.isDeleting = false →
        s.resume.currentCharIndex = s.currentCharIndex + 1
        ∧ s.resume.sched.live = s.sched.live.concat s.sched.nextId := by
  constructor
  · intro s
    cases h : s.timeoutId <;>
      simp [TEState.pause, TEState.stop, h]
  · intro s hp hdel
    by_cases hlen : s.currentCharIndex + 1
        = (s.texts[s.currentTextIndex]?.getD []).length <;>
      simp [TEState.resume, TEState.start, TEState.type, TEState.setText,
        TEState.scheduleTick, Scheduler.setTimeout, List.getD, hdel, hlen]

/-- Witness for the amended C2 on the freshly constructed `["ab"]`
machine. -/
theorem typingEffect_pause_idempotent_resume_not_witness :
    (TypingEffect.new (some []) [['a', 'b']] {}).pause.pause
        = (TypingEffect.new (some []) [['a', 'b']] {}).pause
    ∧ (TypingEffect.new (some []) [['a', 'b']] {}).resume.currentCharIndex = 2
    ∧ (TypingEffect.new (some []) [['a', 'b']] {}).resume.sched.live = [1, 2] := by
  refine ⟨typingEffect_pause_idempotent_resume_not.1 _, ?_, ?_⟩
  · exact (typingEffect_pause_idempotent_resume_not.2
      (TypingEffect.new (some []) [['a', 'b']] {}) (by decide) (by decide)).1
  · exact (typingEffect_pause_idempotent_resume_not.2
      (TypingEffect.new (some []) [['a', 'b']] {}) (by decide) (by decide)).2

/-- Single-pending-timer invariant for a typewriter instance: either no
timer is pending, or exactly the stored handle is pending; and a paused
machine has no pending timer. -/
def TEInv (s : TEState) : Prop :=
  (s.sched.live = []
    ∨ (s.timeoutId.isSome = true ∧ s.sched.live = s.timeoutId.toList))
  ∧ (s.isPaused = true → s.sched.live = [])

instance TEInv.instDecidable (s : TEState) : Decidable (TEInv s) := by
  unfold TEInv; infer_instance

/-- `type` re-establishes the invariant whenever it starts with no pending
timer (it schedules at most the one new continuation timer). -/
theorem TEInv_type (s : TEState) (h1 : s.sched.live = []) : TEInv s.type := by
  by_cases hp : s.isPaused = true
  · simp [TEState.type, hp, TEInv, h1]
  · simp only [Bool.not_eq_true] at hp
    simp only [TEState.type, hp, Bool.false_eq_true, if_false]
    split_ifs <;>
      simp [TEInv, TEState.setText, TEState.scheduleTick,
        Scheduler.setTimeout, h1, hp]

theorem TEInv_tick (s : TEState) (h : TEInv s) : TEInv s.tick := by
  rcases hl : s.sched.live with _ | ⟨a, l⟩
  · simpa [TEState.tick, hl] using h
  · rcases l with _ | ⟨b, l⟩
    · have : (s.sched.clearTimeout a).live = [] := by
        simp [Scheduler.clearTimeout, hl]
      simpa [TEState.tick, hl] using
        TEInv_type { s with sched := s.sched.clearTimeout a } this
    · simpa [TEState.tick, hl] using h

theorem TEInv_pause (s : TEState) (h : TEInv s) : TEInv s.pause := by
  rcases h with ⟨h1, h2⟩
  cases htid : s.timeoutId with
  | none =>
    rcases h1 with h1 | ⟨hs, hl⟩
    · simp [TEState.pause, TEState.stop, htid, TEInv, h1]
    · rw [htid] at hs; simp at hs
  | some a =>
    rcases h1 with h1 | ⟨hs, hl⟩
    · simp [TEState.pause, TEState.stop, htid, TEInv, Scheduler.clearTimeout, h1]
    · rw [htid] at hl
      simp only [Option.toList_some] at hl
      simp [TEState.pause, TEState.stop, htid, TEInv, Scheduler.clearTimeout, hl]

theorem TEInv_resume_of_paused (s : TEState) (h : TEInv s)
    (hp : s.isPaused = true) : TEInv s.resume := by
  have hl : s.sched.live = [] := h.2 hp
  exact TEInv_type { s with isPaused := false } hl

theorem TEInv_new (element : Option Str) (texts : List Str)
    (opts : TEOptions) : TEInv (TypingEffect.new element texts opts) := by
  simp only [TypingEffect.new]
  split
  · exact ⟨Or.inl rfl, fun _ => rfl⟩
  · exact TEInv_type _ rfl

theorem TEInv_single (s : TEState) (h : TEInv s) :
    s.sched.live.length ≤ 1 := by
  rcases h.1 with h1 | ⟨hs, hl⟩
  · simp [h1]
  · rw [hl]
    cases s.timeoutId <;> simp

/-- Timer bookkeeping of one `debounce` wrapper instance: the stored
`timeout` variable plus the live timers it has created. -/
structure DebounceTimers where
  timeout : Option Nat
  sched : Scheduler
deriving Repr, DecidableEq

def DebounceTimers.initial : DebounceTimers :=
  { timeout := none, sched := Scheduler.initial }

/-- The body of the wrapper: `clearTimeout(timeout); timeout =
setTimeout(later, wait);` (cancel the previous handle, then schedule). -/
def DebounceTimers.call (d : DebounceTimers) : DebounceTimers :=
  let w := match d.timeout with
    | some h => d.sched.clearTimeout h
    | none => d.sched
  { timeout := some w.setTimeout.1, sched := w.setTimeout.2 }

/-- The `later` callback firing: its timer (handle `h`) leaves the live
set and the stored variable is nulled. -/
def DebounceTimers.fireLater (d : DebounceTimers) (h : Nat) : DebounceTimers :=
  { timeout := none, sched := d.sched.clearTimeout h }

def DebounceInv (d : DebounceTimers) : Prop :=
  d.sched.live = []
    ∨ (d.timeout.isSome = true ∧ d.sched.live = d.timeout.toList)

instance DebounceInv.instDecidable (d : DebounceTimers) :
    Decidable (DebounceInv d) := by
  unfold DebounceInv; infer_instance

theorem DebounceInv_call (d : DebounceTimers) (h : DebounceInv d) :
    DebounceInv d.call := by
  cases htid : d.timeout with
  | none =>
    rcases h with h1 | ⟨hs, _⟩
    · simp [DebounceTimers.call, htid, DebounceInv, Scheduler.setTimeout, h1]
    · rw [htid] at hs; simp at hs
  | some a =>
    rcases h with h1 | ⟨hs, hl⟩
    · simp [DebounceTimers.call, htid, DebounceInv, Scheduler.setTimeout,
        Scheduler.clearTimeout, h1]
    · rw [htid] at hl
      simp only [Option.toList_some] at hl
      simp [DebounceTimers.call, htid, DebounceInv, Scheduler.setTimeout,
        Scheduler.clearTimeout, hl]

theorem DebounceInv_fire (d : DebounceTimers) (a : Nat)
    (hl : d.sched.live = [a]) : DebounceInv (d.fireLater a) := by
  simp [DebounceTimers.fireLater, DebounceInv, Scheduler.clearTimeout, hl]

theorem DebounceInv_single (d : DebounceTimers) (h : DebounceInv d) :
    d.sched.live.length ≤ 1 := by
  rcases h with h1 | ⟨_, hl⟩
  · simp [h1]
  · rw [hl]
    cases d.timeout <;> simp

/-- Timer bookkeeping of one `throttle` wrapper instance: the `inThrottle`
flag plus the live reset timer it may have created (the source drops the
reset timer's handle). -/
structure ThrottleTimers where
  inThrottle : Bool
  sched : Scheduler
deriving Repr, DecidableEq

def ThrottleTimers.initial : ThrottleTimers :=
  { inThrottle := false, sched := Scheduler.initial }

/-- The body of the wrapper: when not throttled, invoke and schedule the
reset timer; otherwise drop the call. -/
def ThrottleTimers.call (th : ThrottleTimers) : ThrottleTimers :=
  if th.inThrottle = false then
    { inThrottle := true, sched := th.sched.setTimeout.2 }
  else th

/-- The reset callback firing: `inThrottle = false`, its timer leaves the
live set. -/
def ThrottleTimers.fireReset (th : ThrottleTimers) (h : Nat) : ThrottleTimers :=
  { inThrottle := false, sched := th.sched.clearTimeout h }

def ThrottleInv (th : ThrottleTimers) : Prop :=
  (th.inThrottle = false ∧ th.sched.live = [])
    ∨ (th.inThrottle = true ∧ th.sched.live.length = 1)

instance ThrottleInv.instDecidable (th : ThrottleTimers) :
    Decidable (ThrottleInv th) := by
  unfold ThrottleInv; infer_instance

theorem ThrottleInv_call (th : ThrottleTimers) (h : ThrottleInv th) :
    ThrottleInv th.call := by
  rcases h with ⟨hf, hl⟩ | ⟨ht, hl⟩
  · simp [ThrottleTimers.call, hf, ThrottleInv, Scheduler.setTimeout, hl]
  · simp [ThrottleTimers.call, ht, ThrottleInv, hl]

theorem ThrottleInv_fire (th : ThrottleTimers) (a : Nat)
    (hl : th.sched.live = [a]) : ThrottleInv (th.fireReset a) := by
  simp [ThrottleTimers.fireReset, ThrottleInv, Scheduler.clearTimeout, hl]

theorem ThrottleInv_single (th : ThrottleTimers) (h : ThrottleInv th) :
    th.sched.live.length ≤ 1 := by
  rcases h with ⟨_, hl⟩ | ⟨_, hl⟩ <;> simp [hl]

/-- C9, counterexample: `resume` on the freshly constructed, active
`["ab"]` machine (a reachable state with one pending timer) schedules a
second timer without cancelling the first, so the instance holds two
pending timers. -/
theorem single_pending_timer_counterexample :
    1 < (TEState.resume (TypingEffect.new (some []) [['a', 'b']] {})).sched.live.length := by
  decide

/-- C9 as amended: each debounce/throttle wrapper, and each typewriter
instance driven by its own timer ticks, pauses, and resumes of a *paused*
machine, holds at most one pending timer (debounce cancels the previous
handle before scheduling; throttle and the typewriter tick schedule only
after the previous timer has fired).  `resume` on an active machine is the
exception excluded here. -/
theorem single_pending_timer_amended :
    (∀ s : TEState, TEInv s → TEInv s.tick)
    ∧ (∀ s : TEState, TEInv s → TEInv s.pause)
    ∧ (∀ s : TEState, TEInv s → s.isPaused = true → TEInv s.resume)
    ∧ (∀ element texts opts, TEInv (TypingEffect.new element texts opts))
    ∧ (∀ s : TEState, TEInv s → s.sched.live.length ≤ 1)
    ∧ (∀ d : DebounceTimers, DebounceInv d → DebounceInv d.call)
    ∧ (∀ (d : DebounceTimers) (a : Nat), d.sched.live = [a] →
        DebounceInv (d.fireLater a))
    ∧ DebounceInv DebounceTimers.initial
    ∧ (∀ d : DebounceTimers, DebounceInv d → d.sched.live.length ≤ 1)
    ∧ (∀ th : ThrottleTimers, ThrottleInv th → ThrottleInv th.call)
    ∧ (∀ (th : ThrottleTimers) (a : Nat), th.sched.live = [a] →
        ThrottleInv (th.fireReset a))
    ∧ ThrottleInv ThrottleTimers.initial
    ∧ (∀ th : ThrottleTimers, ThrottleInv th → th.sched.live.length ≤ 1) :=
  ⟨TEInv_tick, TEInv_pause, TEInv_resume_of_paused, TEInv_new, TEInv_single,
    DebounceInv_call, DebounceInv_fire, Or.inl rfl, DebounceInv_single,
    ThrottleInv_call, ThrottleInv_fire, Or.inl ⟨rfl, rfl⟩, ThrottleInv_single⟩

/-- Witness for the amended C9, instantiating the invariant preservation
at concrete machines and wrappers. -/
theorem single_pending_timer_amended_witness :
    TEInv (TypingEffect.new (some []) [['a']] {}).tick
    ∧ TEInv (TypingEffect.new (some []) [['a']] {}).pause
    ∧ TEInv (TypingEffect.new (some []) [['a']] {}).pause.resume
    ∧ (TypingEffect.new (some []) [['a']] {}).sched.live.length ≤ 1
    ∧ DebounceInv DebounceTimers.initial.call
    ∧ DebounceInv (DebounceTimers.initial.call.fireLater 1)
    ∧ ThrottleInv ThrottleTimers.initial.call
    ∧ ThrottleInv (ThrottleTimers.initial.call.fireReset 1) :=
  ⟨single_pending_timer_amended.1 _ (by decide),
    single_pending_timer_amended.2.1 _ (by decide),
    single_pending_timer_amended.2.2.1 _ (by decide) (by decide),
    single_pending_timer_amended.2.2.2.2.1 _ (by decide),
    single_pending_timer_amended.2.2.2.2.2.1 _ (by decide),
    single_pending_timer_amended.2.2.2.2.2.2.1 _ 1 (by decide),
    single_pending_timer_amended.2.2.2.2.2.2.2.2.2.1 _ (by decide),
    single_pending_timer_amended.2.2.2.2.2.2.2.2.2.2.1 _ 1 (by decide)⟩

/-- Constructor options of `MultiLineTypingEffect`, with the source's
defaults. -/
structure MLOptions where
  typeSpeed : Nat := 80
  lineDelay : Nat := 500
  showCursor : Bool := true
  cursorChar : Char := '|'
deriving Repr, DecidableEq

/-- Instance state of `MultiLineTypingEffect`.  `elements` is the list of
per-line sinks created by `init` (one per line; empty when `init` refused
to run); `containerPresent` records whether the host container exists. -/
structure MLState where
  containerPresent : Bool
  lines : List Str
  options : MLOptions
  currentLineIndex : Nat
  currentCharIndex : Nat
  timeoutId : Option Nat
  elements : List Str
  sched : Scheduler
deriving Repr, DecidableEq

/-- `this.timeoutId = setTimeout(() => this.typeLine(), delay)`. -/
def MLState.scheduleTick (s : MLState) : MLState :=
  { s with timeoutId := some s.sched.setTimeout.1, sched := s.sched.setTimeout.2 }

/-- `MultiLineTypingEffect.typeLine` (the tick body). -/
def MLState.typeLine (s : MLState) : MLState :=
  if s.lines.length ≤ s.currentLineIndex then s
  else
    let currentLine := s.lines.getD s.currentLineIndex []
    if s.currentCharIndex < currentLine.length then
      -- continue typing current line
      let displayText := currentLine.take (s.currentCharIndex + 1)
      let content :=
        if s.options.showCursor = true
            ∧ s.currentLineIndex = s.lines.length - 1
        then displayText ++ [s.options.cursorChar] else displayText
      MLState.scheduleTick
        { s with elements := s.elements.set s.currentLineIndex content,
                 currentCharIndex := s.currentCharIndex + 1 }
    else
      -- finished current line, move to next (removes the cursor)
      MLState.scheduleTick
        { s with elements := s.elements.set s.currentLineIndex currentLine,
                 currentLineIndex := s.currentLineIndex + 1,
                 currentCharIndex := 0 }

/-- `MultiLineTypingEffect.start` runs `typeLine` synchronously. -/
def MLState.start (s : MLState) : MLState := s.typeLine

/-- Construction (`constructor` + `init`): with a present container and a
non-empty line list, create one empty sink per line and start; otherwise
stay inert. -/
def MultiLineTypingEffect.new (containerPresent : Bool) (lines : List Str)
    (opts : MLOptions) : MLState :=
  let s : MLState :=
    { containerPresent, lines, options := opts, currentLineIndex := 0,
      currentCharIndex := 0, timeoutId := none, elements := [],
      sched := Scheduler.initial }
  if containerPresent = false ∨ lines = [] then s
  else MLState.start { s with elements := lines.map fun _ => [] }

/-- One scheduler-driven tick of the multi-line machine. -/
def MLState.tick (s : MLState) : MLState :=
  match s.sched.live with
  | [h] => MLState.typeLine { s with sched := s.sched.clearTimeout h }
  | _ => s

example :
    (MultiLineTypingEffect.new true [['a']] {}).elements = [['a', '|']] := by
  decide

example :
    ((MultiLineTypingEffect.new true [['a']] {}).tick).elements = [['a']] := by
  decide

example :
    ((MultiLineTypingEffect.new true [['a']] {}).tick).currentLineIndex = 1 := by
  decide

example :
    ((MultiLineTypingEffect.new true [['a']] {}).tick).sched.live = [2] := by
  decide

example :
    (((MultiLineTypingEffect.new true [['a']] {}).tick).tick).sched.live = [] := by
  decide

/-- The shape of every state of a timer-driven run of
`MultiLineTypingEffect`: one pending timer, the freshly scheduled handle
`n - 1`. -/
def runML (lines : List Str) (opts : MLOptions) (i c : Nat)
    (elems : List Str) (n : Nat) : MLState :=
  { containerPresent := true, lines, options := opts, currentLineIndex := i,
    currentCharIndex := c, timeoutId := some (n - 1), elements := elems,
    sched := ⟨n, [n - 1]⟩ }

theorem tick_runML (lines : List Str) (opts : MLOptions) (i c : Nat)
    (elems : List Str) (n : Nat) :
    (runML lines opts i c elems n).tick
      = MLState.typeLine { runML lines opts i c elems n with
                           sched := ⟨n, []⟩ } := by
  simp [runML, MLState.tick, Scheduler.clearTimeout]

/-- C6, counterexample: on `lines = ["a"]` the tick that completes the
last line moves the index to `|lines|` (the terminal configuration) but
still schedules a further `lineDelay` timer, contradicting "no further
scheduling". -/
theorem multiline_done_schedules_counterexample :
    ((MultiLineTypingEffect.new true [['a']] {}).tick).currentLineIndex
        = (MultiLineTypingEffect.new true [['a']] {}).lines.length
    ∧ ((MultiLineTypingEffect.new true [['a']] {}).tick).sched.live ≠ [] := by
  decide

/-- C6 as amended: the tick completing the last line moves the index to
`|lines|` and schedules one final `lineDelay` timer; the tick that timer
drives hits the terminal guard and is a no-op apart from consuming the
timer; afterwards no timer is pending and every further tick leaves the
state unchanged. -/
theorem multiline_last_line_completion (lines : List Str) (opts : MLOptions)
    (t : Str) (i c : Nat) (elems : List Str) (n : Nat)
    (hget : lines[i]? = some t) (hlast : i + 1 = lines.length)
    (hc : t.length ≤ c) :
    ((runML lines opts i c elems n).tick).currentLineIndex = lines.length
    ∧ ((runML lines opts i c elems n).tick).sched.live = [n]
    ∧ (((runML lines opts i c elems n).tick).tick).sched.live = []
    ∧ ∀ m, MLState.tick^[m] (((runML lines opts i c elems n).tick).tick)
        = ((runML lines opts i c elems n).tick).tick := by
  have hguard : ¬ lines.length ≤ i := by
    have : i < lines.length := by omega
    omega
  have hnotlt : ¬ c < t.length := by omega
  have h1 : (runML lines opts i c elems n).tick
      = runML lines opts (i + 1) 0 (elems.set i t) (n + 1) := by
    rw [tick_runML]
    simp [runML, MLState.typeLine, List.getD, hget, hguard, hnotlt,
      MLState.scheduleTick, Scheduler.setTimeout]
  have h2 : (runML lines opts (i + 1) 0 (elems.set i t) (n + 1)).tick
      = { runML lines opts (i + 1) 0 (elems.set i t) (n + 1) with
          sched := ⟨n + 1, []⟩ } := by
    rw [tick_runML]
    have : lines.length ≤ i + 1 := by omega
    simp [runML, MLState.typeLine, this]
  have h3 : MLState.tick { runML lines opts (i + 1) 0 (elems.set i t) (n + 1) with
      sched := ⟨n + 1, []⟩ }
      = { runML lines opts (i + 1) 0 (elems.set i t) (n + 1) with
          sched := ⟨n + 1, []⟩ } := by
    simp [MLState.tick]
  refine ⟨?_, ?_, ?_, ?_⟩
  · rw [h1]; simp [runML]; omega
  · rw [h1]; rfl
  · rw [h1, h2]
  · intro m
    rw [h1, h2]
    exact Function.iterate_fixed h3 m

/-- Witness for the amended C6 on `lines = ["a"]`, at the state just
before the completion tick. -/
theorem multiline_last_line_completion_witness :
    ((runML [['a']] {} 0 1 [['a', '|']] 2).tick).currentLineIndex = 1
    ∧ ((runML [['a']] {} 0 1 [['a', '|']] 2).tick).sched.live = [2]
    ∧ (((runML [['a']] {} 0 1 [['a', '|']] 2).tick).tick).sched.live = []
    ∧ ∀ m, MLState.tick^[m] (((runML [['a']] {} 0 1 [['a', '|']] 2).tick).tick)
        = ((runML [['a']] {} 0 1 [['a', '|']] 2).tick).tick :=
  multiline_last_line_completion [['a']] {} ['a'] 0 1 [['a', '|']] 2
    (by decide) (by decide) (by decide)

/-- C7, counterexample: on `lines = ["a"]` with the cursor configured, the
tick that completes the last line leaves the final sink at `"a"` — the
cursor is removed on completion, it does not remain appended. -/
theorem multiline_cursor_removed_counterexample :
    ((MultiLineTypingEffect.new true [['a']] {}).tick).currentLineIndex = 1
    ∧ ((MultiLineTypingEffect.new true [['a']] {}).tick).elements
        ≠ [['a', '|']] := by
  decide

/-- C7 as amended: with the cursor configured, every typing tick of the
last line appends the cursor character after the typed prefix, but the
tick completing the last line overwrites the sink with the bare line,
removing the cursor. -/
theorem multiline_cursor_only_while_typing (lines : List Str)
    (opts : MLOptions) (t : Str) (i : Nat)
    (hget : lines[i]? = some t) (hlast : i + 1 = lines.length)
    (hcursor : opts.showCursor = true) :
    (∀ c elems n, c < t.length →
      ((runML lines opts i c elems n).tick).elements
        = elems.set i (t.take (c + 1) ++ [opts.cursorChar]))
    ∧ ∀ c elems n, t.length ≤ c →
      ((runML lines opts i c elems n).tick).elements = elems.set i t := by
  have hguard : ¬ lines.length ≤ i := by omega
  have hlast' : (i = lines.length - 1) ↔ True := by
    constructor
    · intro _; trivial
    · intro _; omega
  constructor
  · intro c elems n hc
    rw [tick_runML]
    simp [runML, MLState.typeLine, List.getD, hget, hguard, hc, hcursor,
      hlast', MLState.scheduleTick, Scheduler.setTimeout]
  · intro c elems n hc
    have hnotlt : ¬ c < t.length := by omega
    rw [tick_runML]
    simp [runML, MLState.typeLine, List.getD, hget, hguard, hnotlt,
      MLState.scheduleTick, Scheduler.setTimeout]

/-- Witness for the amended C7 on `lines = ["ab"]`: the typing tick shows
`"ab|"`, the completion tick leaves `"ab"`. -/
theorem multiline_cursor_only_while_typing_witness :
    ((runML [['a', 'b']] {} 0 1 [['a', '|']] 2).tick).elements
        = [['a', 'b', '|']]
    ∧ ((runML [['a', 'b']] {} 0 2 [['a', 'b', '|']] 3).tick).elements
        = [['a', 'b']] := by
  constructor
  · exact (multiline_cursor_only_while_typing [['a', 'b']] {} ['a', 'b'] 0
      (by decide) (by decide) (by decide)).1 1 [['a', '|']] 2 (by decide)
  · exact (multiline_cursor_only_while_typing [['a', 'b']] {} ['a', 'b'] 0
      (by decide) (by decide) (by decide)).2 2 [['a', 'b', '|']] 3 (by decide)

/-- C8: construction with a missing sink or an empty text/line list leaves
either typewriter inert: no timer is ever pending (so no tick ever runs),
no sink is created or written (the single-text element keeps its prior
content, the multi-line machine creates no line sinks), and every tick
leaves the state unchanged forever. -/
theorem degenerate_construction_inert :
    (∀ texts opts,
      (TypingEffect.new none texts opts).sched.live = []
      ∧ (TypingEffect.new none texts opts).element = none
      ∧ ∀ m, TEState.tick^[m] (TypingEffect.new none texts opts)
          = TypingEffect.new none texts opts)
    ∧ (∀ e opts,
      (TypingEffect.new (some e) [] opts).sched.live = []
      ∧ (TypingEffect.new (some e) [] opts).element = some e
      ∧ ∀ m, TEState.tick^[m] (TypingEffect.new (some e) [] opts)
          = TypingEffect.new (some e) [] opts)
    ∧ (∀ lines opts,
      (MultiLineTypingEffect.new false lines opts).sched.live = []
      ∧ (MultiLineTypingEffect.new false lines opts).elements = []
      ∧ ∀ m, MLState.tick^[m] (MultiLineTypingEffect.new false lines opts)
          = MultiLineTypingEffect.new false lines opts)
    ∧ ∀ containerPresent opts,
      (MultiLineTypingEffect.new containerPresent [] opts).sched.live = []
      ∧ (MultiLineTypingEffect.new containerPresent [] opts).elements = []
      ∧ ∀ m, MLState.tick^[m] (MultiLineTypingEffect.new containerPresent [] opts)
          = MultiLineTypingEffect.new containerPresent [] opts := by
  have hTE : ∀ element texts opts,
      (element.isNone = true ∨ texts = []) →
      TypingEffect.new element texts opts
        = { element, texts, options := opts, currentTextIndex := 0,
            currentCharIndex := 0, isDeleting := false, isPaused := false,
            timeoutId := none, sched := Scheduler.initial } := by
    intro element texts opts h
    rcases h with h | h
    · simp [TypingEffect.new, Option.isNone_iff_eq_none.mp h]
    · simp [TypingEffect.new, h]
  have hML : ∀ containerPresent lines opts,
      (containerPresent = false ∨ lines = []) →
      MultiLineTypingEffect.new containerPresent lines opts
        = { containerPresent, lines, options := opts, currentLineIndex := 0,
            currentCharIndex := 0, timeoutId := none, elements := [],
            sched := Scheduler.initial } := by
    intro containerPresent lines opts h
    rcases h with h | h <;> simp [MultiLineTypingEffect.new, h]
  have hTEfix : ∀ s : TEState, s.sched.live = [] → s.tick = s := by
    intro s h
    simp [TEState.tick, h]
  have hMLfix : ∀ s : MLState, s.sched.live = [] → s.tick = s := by
    intro s h
    simp [MLState.tick, h]
  refine ⟨fun texts opts => ?_, fun e opts => ?_, fun lines opts => ?_,
    fun containerPresent opts => ?_⟩
  · rw [hTE none texts opts (Or.inl rfl)]
    exact ⟨rfl, rfl, fun m => Function.iterate_fixed (hTEfix _ rfl) m⟩
  · rw [hTE (some e) [] opts (Or.inr rfl)]
    exact ⟨rfl, rfl, fun m => Function.iterate_fixed (hTEfix _ rfl) m⟩
  · rw [hML false lines opts (Or.inl rfl)]
    exact ⟨rfl, rfl, fun m => Function.iterate_fixed (hMLfix _ rfl) m⟩
  · rw [hML containerPresent [] opts (Or.inr rfl)]
    exact ⟨rfl, rfl, fun m => Function.iterate_fixed (hMLfix _ rfl) m⟩

/-!
Timed trace semantics of `throttle` and `debounce` (from
`Frontend/js/utils.js`).  A trace is the list of call times (with, for
debounce, the call's arguments), in temporal order.  Timers fire at their
scheduled absolute time; a timer whose fire time has passed when the next
call arrives has already run.
-/

/-- Closure state of one `throttle` wrapper: the `inThrottle` flag paired
with the absolute time at which the pending reset timer fires. -/
structure ThrottleRunState where
  inThrottle : Bool
  resetAt : Option Nat
deriving Repr, DecidableEq

/-- A call to the throttled wrapper at time `t`: first the pending reset
timer fires if due, then the wrapper body runs — when not throttled it
invokes `f` synchronously (second component `true`) and schedules the
reset at `t + limit`; otherwise the call is dropped. -/
def throttleStep (limit : Nat) (s : ThrottleRunState) (t : Nat) :
    ThrottleRunState × Bool :=
  let s := match s.resetAt with
    | some e => if e ≤ t then ⟨false, none⟩ else s
    | none => s
  if s.inThrottle = false then (⟨true, some (t + limit)⟩, true) else (s, false)

/-- The times at which the wrapped function is invoked, given the call
times, starting from closure state `s`. -/
def throttleInvs (limit : Nat) : ThrottleRunState → List Nat → List Nat
  | _, [] => []
  | s, t :: ts =>
    if (throttleStep limit s t).2 = true
    then t :: throttleInvs limit (throttleStep limit s t).1 ts
    else throttleInvs limit (throttleStep limit s t).1 ts

/-- Invocation times of a freshly created throttle wrapper
(`inThrottle` initially unset). -/
def throttleRun (limit : Nat) (calls : List Nat) : List Nat :=
  throttleInvs limit ⟨false, none⟩ calls

example : throttleRun 50 [0, 10, 60] = [0, 60] := by decide

example : throttleRun 50 [0, 10, 49, 50, 99, 100] = [0, 50, 100] := by decide

theorem throttleInvs_sublist (limit : Nat) :
    ∀ (ts : List Nat) (s : ThrottleRunState),
      (throttleInvs limit s ts).Sublist ts := by
  intro ts
  induction ts with
  | nil => intro s; simp [throttleInvs]
  | cons t ts ih =>
    intro s
    rw [throttleInvs]
    split
    · exact List.Sublist.cons₂ t (ih _)
    · exact List.Sublist.cons t (ih _)

/-- From a throttled state whose reset fires at `e`, every later
invocation happens at a time `≥ e`. -/
theorem throttleInvs_lb (limit : Nat) :
    ∀ (ts : List Nat) (e : Nat) (u : Nat),
      u ∈ throttleInvs limit ⟨true, some e⟩ ts → e ≤ u := by
  intro ts
  induction ts with
  | nil => intro e u hu; simp [throttleInvs] at hu
  | cons t ts ih =>
    intro e u hu
    by_cases he : e ≤ t
    · rw [throttleInvs] at hu
      simp only [throttleStep, he, if_true, if_pos rfl] at hu
      rcases List.mem_cons.mp hu with h | h
      · omega
      · have := ih (t + limit) u h
        omega
    · rw [throttleInvs] at hu
      simp only [throttleStep, he, if_false] at hu
      exact ih e u hu

/-- From a throttled state, consecutive invocations are at least `limit`
apart. -/
theorem throttleInvs_chain (limit : Nat) :
    ∀ (ts : List Nat) (e : Nat),
      List.Chain' (fun a b => a + limit ≤ b)
        (throttleInvs limit ⟨true, some e⟩ ts) := by
  intro ts
  induction ts with
  | nil => intro e; simp [throttleInvs]
  | cons t ts ih =>
    intro e
    by_cases he : e ≤ t
    · rw [throttleInvs]
      simp only [throttleStep, he, if_true, if_pos rfl]
      rw [List.chain'_cons']
      refine ⟨?_, ih (t + limit)⟩
      intro y hy
      exact throttleInvs_lb limit ts (t + limit) y (List.mem_of_mem_head? hy)
    · rw [throttleInvs]
      simp only [throttleStep, he, if_false]
      exact ih e

theorem throttleRun_cons (limit t : Nat) (ts : List Nat) :
    throttleRun limit (t :: ts)
      = t :: throttleInvs limit ⟨true, some (t + limit)⟩ ts := by
  rw [throttleRun, throttleInvs]
  simp [throttleStep]

/-- C4: the throttle wrapper invokes `f` synchronously on the first call
of a quiet period (the invocation times are a subsequence of the call
times, and a fresh wrapper fires on its very first call), drops — rather
than defers — calls during the cooldown, fires at most once per
`limit`-length window (consecutive invocations are `≥ limit` apart), and
on the spec's example `t = 0, 10, 60` with `limit = 50` invokes exactly at
`t = 0` and `t = 60`. -/
theorem throttle_drop_semantics :
    (∀ limit calls, (throttleRun limit calls).Sublist calls)
    ∧ (∀ limit t ts, (throttleRun limit (t :: ts)).head? = some t)
    ∧ (∀ limit calls,
        List.Chain' (fun a b => a + limit ≤ b) (throttleRun limit calls))
    ∧ throttleRun 50 [0, 10, 60] = [0, 60] := by
  refine ⟨fun limit calls => throttleInvs_sublist limit calls _,
    fun limit t ts => ?_, fun limit calls => ?_, by decide⟩
  · rw [throttleRun_cons]; rfl
  · cases calls with
    | nil => simp [throttleRun, throttleInvs]
    | cons t ts =>
      rw [throttleRun_cons, List.chain'_cons']
      refine ⟨?_, throttleInvs_chain limit ts (t + limit)⟩
      intro y hy
      exact throttleInvs_lb limit ts (t + limit) y (List.mem_of_mem_head? hy)

/-- Timed trace semantics of `debounce` in its non-immediate mode (the
mode the spec's contract describes; `immediate` is `false`).  The closure
state is the pending execution: its absolute fire time `t + w` and the
arguments it captured.  A call first lets a pending timer whose fire time
has passed run (emitting that invocation), then cancels any still-pending
timer (`clearTimeout`) and schedules a new execution `w` after itself with
its own arguments.  After the last call the remaining pending execution
eventually fires. -/
def debounceInvs {α : Type} (w : Nat) :
    Option (Nat × α) → List (Nat × α) → List (Nat × α)
  | p, [] => p.toList
  | p, (t, a) :: rest =>
    match p with
    | some q =>
      if q.1 ≤ t then q :: debounceInvs w (some (t + w, a)) rest
      else debounceInvs w (some (t + w, a)) rest
    | none => debounceInvs w (some (t + w, a)) rest

/-- (fire time, arguments) of each invocation of the debounced function,
for calls at the given times with the given arguments, on a fresh
wrapper. -/
def debounceRun {α : Type} (w : Nat) (calls : List (Nat × α)) :
    List (Nat × α) :=
  debounceInvs w none calls

example : debounceRun 50 [(0, 0), (10, 1), (20, 2)] = [(70, 2)] := by decide

example :
    debounceRun 50 [(0, 0), (10, 1), (100, 2)] = [(60, 1), (150, 2)] := by
  decide

/-- Within a burst (consecutive calls less than `w` apart), each call
cancels the previous pending execution, so only the final one fires. -/
theorem debounceInvs_burst {α : Type} (w : Nat) :
    ∀ (ts : List (Nat × α)) (t : Nat) (a : α),
      List.Chain (fun p q : Nat × α => q.1 < p.1 + w) (t, a) ts →
      debounceInvs w (some (t + w, a)) ts
        = [((ts.getLastD (t, a)).1 + w, (ts.getLastD (t, a)).2)] := by
  intro ts
  induction ts with
  | nil => intro t a _; simp [debounceInvs]
  | cons q rest ih =>
    intro t a hchain
    rcases q with ⟨t1, a1⟩
    rcases List.chain_cons.mp hchain with ⟨hlt, hchain'⟩
    have hnot : ¬ t + w ≤ t1 := by
      simp only at hlt
      omega
    rw [debounceInvs]
    simp only [hnot, if_false]
    rw [ih t1 a1 hchain', List.getLastD_cons]

/-- C5: for a burst of calls each spaced less than `w` after the previous
one, the debounced function fires exactly once, `w` after the last call,
with the last call's arguments; on the spec's example `t = 0, 10, 20` with
`w = 50` the single invocation is at `t = 70` with the `t = 20`
arguments. -/
theorem debounce_burst_semantics :
    (∀ (α : Type) (w t : Nat) (a : α) (ts : List (Nat × α)),
      List.Chain (fun p q : Nat × α => q.1 < p.1 + w) (t, a) ts →
      debounceRun w ((t, a) :: ts)
        = [((ts.getLastD (t, a)).1 + w, (ts.getLastD (t, a)).2)])
    ∧ debounceRun 50 [(0, 0), (10, 1), (20, 2)] = [(70, 2)] := by
  refine ⟨fun α w t a ts hchain => ?_, by decide⟩
  rw [debounceRun, debounceInvs]
  exact debounceInvs_burst w ts t a hchain

/-- Witness for C5 at the spec's example burst. -/
theorem debounce_burst_semantics_witness :
    debounceRun 50 [(0, 0), (10, 1), (20, 2)]
      = [(((([(10, 1), (20, 2)] : List (Nat × Nat)).getLastD (0, 0))).1 + 50,
          ((([(10, 1), (20, 2)] : List (Nat × Nat)).getLastD (0, 0))).2)] :=
  debounce_burst_semantics.1 Nat 50 0 0 [(10, 1), (20, 2)]
    (List.Chain.cons (by decide) (List.Chain.cons (by decide) List.Chain.nil))

-- sanity checks of the embedding on concrete runs (kept as `example`s)
example :
    (TypingEffect.new (some []) [['a', 'b']] {}).currentCharIndex = 1 := by
  decide

example :
    (TypingEffect.new (some []) [['a', 'b']] {}).element = some ['a'] := by
  decide

example :
    ((TypingEffect.new (some []) [['a', 'b']] {}).tick).element
      = some ['a', 'b'] := by
  decide

example :
    ((TypingEffect.new (some []) [['a', 'b']] {}).tick).isDeleting = true := by
  decide
